import Mathlib

/-!
Verification development for edbrute (src/main.rs): a parallel brute-force
search for an ed25519 keypair whose public key, read as a big-endian u128
prefix, is maximal. The definitions below are a shallow embedding of the
Rust source: bytes are `Nat`s below 256, `[u8; 32]` arrays are `List Nat`
of length 32, `u128` values are `Nat`s below `2 ^ 128`, fallible Rust code
(`anyhow::Result`, panicking `unwrap`) is made explicit with
`Except`/`Option`/outcome types, and the I/O environment (file reads,
channel sends, key generation randomness) is passed in as explicit inputs.
-/

namespace Edbrute

/-- Model of `ed25519_dalek::Keypair`: a public and a secret component, each
a fixed-length byte sequence (`[u8; 32]`), modelled as lists of byte values. -/
structure Keypair where
  public : List Nat
  secret : List Nat
deriving DecidableEq

/-- Model of `ed25519_dalek::PUBLIC_KEY_LENGTH` (32 bytes). -/
def PUBLIC_KEY_LENGTH : Nat := 32

/-- Model of `ed25519_dalek::SECRET_KEY_LENGTH` (32 bytes). -/
def SECRET_KEY_LENGTH : Nat := 32

/-- Big-endian byte interpretation, mirroring `u128::from_be_bytes` on the
byte list: the first byte is the most significant. -/
def beBytesToNat : List Nat → Nat
  | [] => 0
  | b :: bs => b * 256 ^ bs.length + beBytesToNat bs

/-- Mirrors `fn public_key_to_u128`:
`u128::from_be_bytes(keypair.public.as_bytes()[0..16].try_into().unwrap())`.
The slice `[0..16]` of the 32-byte public key takes its first 16 bytes. -/
def public_key_to_u128 (keypair : Keypair) : Nat :=
  beBytesToNat (keypair.public.take 16)

/-- Model of the Rust range-slice expression `bs[lo..hi]`, which panics
(here: `none`) when the range is out of bounds. -/
def sliceRange (bs : List Nat) (lo hi : Nat) : Option (List Nat) :=
  if lo ≤ hi ∧ hi ≤ bs.length then some ((bs.drop lo).take (hi - lo)) else none

/-- Model of `<[u8; 16]>::try_into` composed with `u128::from_be_bytes`:
fails (`none`, an `unwrap` panic in Rust) unless the slice has exactly
16 bytes. -/
def u128_from_be_bytes (bs : List Nat) : Option Nat :=
  if bs.length = 16 then some (beBytesToNat bs) else none

/-- Fallibility-explicit version of `public_key_to_u128`, keeping the two
spots where the Rust expression could panic (`[0..16]` and
`try_into().unwrap()`) as `Option` failures. -/
def public_key_to_u128_checked (keypair : Keypair) : Option Nat :=
  match sliceRange keypair.public 0 16 with
  | none => none
  | some s => u128_from_be_bytes s

/-- Lowercase hex digit for a value below 16, as produced by `hex::encode`:
0-9 map to characters 48-57, 10-15 map to characters 97-102. -/
def hexDigitChar (n : Nat) : Char :=
  if n < 10 then Char.ofNat (48 + n) else Char.ofNat (87 + n)

/-- Two lowercase hex characters for one byte, high nibble first. -/
def hexEncodeByte (b : Nat) : List Char :=
  [hexDigitChar (b / 16), hexDigitChar (b % 16)]

/-- Mirrors `hex::encode` on a byte sequence: lowercase hex, two characters
per byte, in order. -/
def hexEncode : List Nat → List Char
  | [] => []
  | b :: bs => hexEncodeByte b ++ hexEncode bs

/-- Value of one hex character as accepted by `hex::decode` (digits,
lowercase letters, uppercase letters); `none` for any other character. -/
def hexDigitValue (c : Char) : Option Nat :=
  if 48 ≤ c.toNat ∧ c.toNat ≤ 57 then some (c.toNat - 48)
  else if 97 ≤ c.toNat ∧ c.toNat ≤ 102 then some (c.toNat - 87)
  else if 65 ≤ c.toNat ∧ c.toNat ≤ 70 then some (c.toNat - 55)
  else none

/-- Mirrors `hex::decode`: fails on odd length or on any non-hex character,
otherwise pairs characters into bytes, high nibble first. -/
def hexDecode : List Char → Option (List Nat)
  | [] => some []
  | [_] => none
  | c1 :: c2 :: rest =>
      match hexDigitValue c1, hexDigitValue c2, hexDecode rest with
      | some hi, some lo, some tail => some ((16 * hi + lo) :: tail)
      | _, _, _ => none

/-- Mirrors `str::split_once`: splits at the first occurrence of `sep`,
returning the parts before and after it, or `none` when `sep` is absent. -/
def split_once (sep : Char) : List Char → Option (List Char × List Char)
  | [] => none
  | c :: cs =>
      if c = sep then some ([], cs)
      else
        match split_once sep cs with
        | none => none
        | some (l, r) => some (c :: l, r)

/-- Mirrors `PublicKey::from_bytes`: fails unless the byte sequence has
length `PUBLIC_KEY_LENGTH`. The Rust function additionally decompresses the
Edwards point; decompression succeeds on every byte string that is the
compressed form of an existing `PublicKey` (the only inputs the claims
below apply it to), and the resulting key's `as_bytes` returns exactly the
input bytes, so the byte content is modelled as preserved unchanged. -/
def publicKeyFromBytes (bs : List Nat) : Option (List Nat) :=
  if bs.length = PUBLIC_KEY_LENGTH then some bs else none

/-- Mirrors `SecretKey::from_bytes`: fails unless the byte sequence has
length `SECRET_KEY_LENGTH`; the bytes are stored unchanged. -/
def secretKeyFromBytes (bs : List Nat) : Option (List Nat) :=
  if bs.length = SECRET_KEY_LENGTH then some bs else none

/-- Mirrors `fn serialize_keypair`: lowercase hex of the public bytes, a
comma, lowercase hex of the secret bytes. -/
def serialize_keypair (keypair : Keypair) : List Char :=
  hexEncode keypair.public ++ ',' :: hexEncode keypair.secret

/-- The loop body of `fn checkpoint_with_largest_keypair` for one line:
`split_once(',')` (its absence is the error "malformed keypair line"), then
`hex::decode` on both halves, then `PublicKey::from_bytes` and
`SecretKey::from_bytes`; every failure aborts with an error (`?`). -/
def parse_checkpoint_line (line : List Char) : Except String Keypair :=
  match split_once ',' line with
  | none => Except.error "malformed keypair line"
  | some (public_hex, secret_hex) =>
      match hexDecode public_hex, hexDecode secret_hex with
      | some public_bytes, some secret_bytes =>
          match publicKeyFromBytes public_bytes, secretKeyFromBytes secret_bytes with
          | some pub, some sec => Except.ok { public := pub, secret := sec }
          | _, _ => Except.error "invalid key byte length"
      | _, _ => Except.error "invalid hex"

/-- The `for line in reader.lines().flatten()` loop of
`checkpoint_with_largest_keypair`, run over the lines that were read
successfully: each line is parsed and pushed; the first parse error aborts
the whole function (the `?` operator). -/
def parseLines : List (List Char) → Except String (List Keypair)
  | [] => Except.ok []
  | l :: ls =>
      match parse_checkpoint_line l with
      | Except.error e => Except.error e
      | Except.ok kp =>
          match parseLines ls with
          | Except.error e => Except.error e
          | Except.ok kps => Except.ok (kp :: kps)

/-- Mirrors `.lines().flatten()` on the reader: the iterator of per-line
read results (`io::Result<String>`) is flattened, silently dropping every
line whose read failed and keeping the successfully read lines in order. -/
def readOkLines (lineResults : List (Except String (List Char))) : List (List Char) :=
  lineResults.filterMap fun r =>
    match r with
    | Except.ok l => some l
    | Except.error _ => none

/-- Mirrors `Iterator::max_by_key` as used on the parsed keypair vector:
fold keeping the current maximum, where a later element replaces the
accumulator whenever the accumulator's key is not strictly greater — so
among elements tied for the maximum, the last one is returned. -/
def max_by_key (f : Keypair → Nat) : List Keypair → Option Keypair
  | [] => none
  | x :: xs => some (xs.foldl (fun acc y => if f acc > f y then acc else y) x)

/-- Mirrors the pure content of `fn checkpoint_with_largest_keypair`: the
file-open step is the I/O environment, and the reader's per-line read
results are the input. Lines that failed to read are dropped by
`.flatten()`; each remaining line is parsed (first failure is fatal); the
keypair with the greatest `public_key_to_u128` is selected, or `none` for
an empty file. -/
def checkpoint_with_largest_keypair
    (lineResults : List (Except String (List Char))) : Except String (Option Keypair) :=
  match parseLines (readOkLines lineResults) with
  | Except.error e => Except.error e
  | Except.ok keypairs => Except.ok (max_by_key public_key_to_u128 keypairs)

/-- Mirrors `enum WorkerMessage`: either a candidate keypair that beat the
sending worker's local threshold, or a progress delta. -/
inductive WorkerMessage where
  | Largest (keypair : Keypair)
  | Progress (iteration_delta : Nat)
deriving DecidableEq

/-- Observable effects of `fn run_controller`, in program order.
`Broadcast v` stands for the `for sender in &to_threads` loop sending `v`
on every worker's channel; `Append kp` for the `writeln!` of
`serialize_keypair(kp)` plus `flush`; `LogLine kp` for the timestamped
`spinner.println`; `ProgressInc d` for `spinner.inc(d)`. -/
inductive ControllerOutput where
  | Broadcast (value : Nat)
  | Append (keypair : Keypair)
  | LogLine (keypair : Keypair)
  | ProgressInc (delta : Nat)
deriving DecidableEq

/-- The controller's mutable locals `largest_value` / `largest_keypair`. -/
structure ControllerState where
  largest_value : Nat
  largest_keypair : Keypair
deriving DecidableEq

/-- One iteration of the controller's `while let Ok(keypair) = recv()` loop
body: a `Largest` candidate is re-valued and accepted only when strictly
greater than `largest_value`, in which case the new value is broadcast to
every worker, `largest_keypair` is replaced, and the keypair is appended to
the checkpoint and logged; a `Progress` message only advances the display
counter. -/
def controllerStep (s : ControllerState) (m : WorkerMessage) :
    ControllerState × List ControllerOutput :=
  match m with
  | WorkerMessage.Largest keypair =>
      let value := public_key_to_u128 keypair
      if value > s.largest_value then
        ({ largest_value := value, largest_keypair := keypair },
         [ControllerOutput.Broadcast value, ControllerOutput.Append keypair,
          ControllerOutput.LogLine keypair])
      else (s, [])
  | WorkerMessage.Progress iteration_delta =>
      (s, [ControllerOutput.ProgressInc iteration_delta])

/-- The controller loop over a finite prefix of the message stream received
on the shared channel, collecting the outputs in order. -/
def controllerRun (s : ControllerState) : List WorkerMessage →
    ControllerState × List ControllerOutput
  | [] => (s, [])
  | m :: ms =>
      let step := controllerStep s m
      let rest := controllerRun step.1 ms
      (rest.1, step.2 ++ rest.2)

/-- The successive values of the controller's `largest_value` local, one
entry before each message plus the final value. -/
def controllerValueTrace (s : ControllerState) : List WorkerMessage → List Nat
  | [] => [s.largest_value]
  | m :: ms => s.largest_value :: controllerValueTrace (controllerStep s m).1 ms

/-- The values broadcast to the workers, extracted from an output list in
order. -/
def broadcastValues : List ControllerOutput → List Nat
  | [] => []
  | ControllerOutput.Broadcast v :: outs => v :: broadcastValues outs
  | _ :: outs => broadcastValues outs

/-- The keypairs appended to the checkpoint file, extracted from an output
list in order. -/
def appendedKeypairs : List ControllerOutput → List Keypair
  | [] => []
  | ControllerOutput.Append kp :: outs => kp :: appendedKeypairs outs
  | _ :: outs => appendedKeypairs outs

/-- Mirrors `fn run_controller` around the message loop: the checkpoint
load result is an input (the file handle itself is I/O environment), a
load error aborts with that error (`?` after `.context(..)`); otherwise the
incumbent is the saved maximum or, for an empty store, the freshly
generated keypair `fresh` (the `unwrap_or_else` branch), its value is
broadcast to every worker before the loop, and the loop then processes the
received messages. -/
def run_controller (loadResult : Except String (Option Keypair)) (fresh : Keypair)
    (ms : List WorkerMessage) :
    Except String (ControllerState × List ControllerOutput) :=
  match loadResult with
  | Except.error e => Except.error e
  | Except.ok saved_largest_keypair =>
      let largest_keypair := saved_largest_keypair.getD fresh
      let largest_value := public_key_to_u128 largest_keypair
      let result := controllerRun
        { largest_value := largest_value, largest_keypair := largest_keypair } ms
      Except.ok (result.1, ControllerOutput.Broadcast largest_value :: result.2)

/-- Mirrors `let iteration_delta = u16::MAX as usize;` — `u16::MAX` is
65535. -/
def iteration_delta : Nat := 65535

/-- The candidates one batch generates: the inner
`for _ in 0..iteration_delta` loop calls `Keypair::generate` once per
iteration; `gen i` is the keypair randomness produces at iteration `i`. -/
def workerBatchCandidates (gen : Nat → Keypair) : List Keypair :=
  List.ofFn fun i : Fin iteration_delta => gen i.val

/-- Outcome of one batch's inner loop: either some `Largest` send failed —
the `.unwrap()` panics, with the messages already sent recorded — or the
loop completed with a final local `largest_value` and the sent messages. -/
inductive BatchOutcome where
  | panicked (sent : List WorkerMessage)
  | completed (largest_value : Nat) (sent : List WorkerMessage)
deriving DecidableEq

/-- The inner batch loop of `fn run_worker`: for each generated keypair, if
its value strictly exceeds the local `largest_value`, send it to the
controller (`largestSendFails` tells whether that send fails; a failure is
an `unwrap` panic) and optimistically raise the local threshold to the
candidate's value. -/
def workerBatchSends (largest_value : Nat) (largestSendFails : Keypair → Bool) :
    List Keypair → BatchOutcome
  | [] => BatchOutcome.completed largest_value []
  | pair :: rest =>
      let value := public_key_to_u128 pair
      if value > largest_value then
        if largestSendFails pair then BatchOutcome.panicked []
        else
          match workerBatchSends value largestSendFails rest with
          | BatchOutcome.panicked sent =>
              BatchOutcome.panicked (WorkerMessage.Largest pair :: sent)
          | BatchOutcome.completed t sent =>
              BatchOutcome.completed t (WorkerMessage.Largest pair :: sent)
      else workerBatchSends largest_value largestSendFails rest

/-- Mirrors the post-batch `if let Ok(largest_found) = try_recv()`: when a
value was polled it is adopted unconditionally, otherwise the local
threshold is kept. -/
def workerPoll (largest_value : Nat) (polled : Option Nat) : Nat :=
  match polled with
  | some largest_found => largest_found
  | none => largest_value

/-- How one pass of the worker's outer `loop` ends: it continues with a new
local threshold, breaks out silently (failed `Progress` send), or panics
(failed `Largest` send hit `.unwrap()`). `sent` lists the messages that
were delivered to the controller during the pass. -/
inductive LoopOutcome where
  | continues (largest_value : Nat) (sent : List WorkerMessage)
  | breaks (sent : List WorkerMessage)
  | panics (sent : List WorkerMessage)
deriving DecidableEq

/-- One pass of the worker's outer `loop` over an explicit candidate list:
run the batch (a failed candidate send panics), then poll `try_recv` and
adopt any polled threshold, then send the `Progress` message; if that send
fails the loop breaks (silent exit), otherwise the pass completes and the
loop continues. -/
def workerIterationOn (largest_value : Nat) (cands : List Keypair)
    (largestSendFails : Keypair → Bool) (polled : Option Nat)
    (progressSendFails : Bool) : LoopOutcome :=
  match workerBatchSends largest_value largestSendFails cands with
  | BatchOutcome.panicked sent => LoopOutcome.panics sent
  | BatchOutcome.completed t sent =>
      let t2 := workerPoll t polled
      if progressSendFails then LoopOutcome.breaks sent
      else LoopOutcome.continues t2 (sent ++ [WorkerMessage.Progress iteration_delta])

/-- One pass of the outer `loop` in `fn run_worker`: the batch runs over
exactly the `iteration_delta` candidates the iteration generates. -/
def run_worker_iteration (largest_value : Nat) (gen : Nat → Keypair)
    (largestSendFails : Keypair → Bool) (polled : Option Nat)
    (progressSendFails : Bool) : LoopOutcome :=
  workerIterationOn largest_value (workerBatchCandidates gen) largestSendFails polled
    progressSendFails

/-- The `public_key_to_u128` values of the `Largest` messages in a message
list, in order: exactly the successive values the worker's batch loop
assigned to its local `largest_value`. -/
def largestValuesOf : List WorkerMessage → List Nat
  | [] => []
  | WorkerMessage.Largest kp :: ms => public_key_to_u128 kp :: largestValuesOf ms
  | WorkerMessage.Progress _ :: ms => largestValuesOf ms

/-- The full sequence of values assigned to a worker's local
`largest_value` after the initial `recv`, over a run of batches in which no
send fails. Each batch contributes its optimistic raises (in order),
followed by the adopted polled threshold when the post-batch `try_recv`
returned one. The per-batch candidate lists stand for the keypairs
generated during that batch. -/
def workerThresholdAssignments (largest_value : Nat) :
    List (List Keypair × Option Nat) → List Nat
  | [] => []
  | (cands, polled) :: rest =>
      match workerBatchSends largest_value (fun _ => false) cands with
      | BatchOutcome.panicked _ => []
      | BatchOutcome.completed t sent =>
          let t2 := workerPoll t polled
          largestValuesOf sent ++
            match polled with
            | some v => v :: workerThresholdAssignments t2 rest
            | none => workerThresholdAssignments t2 rest

/-- Model of a process exit status: `success` is exit code 0. -/
inductive ExitStatus where
  | success
  | failure
deriving DecidableEq

/-- Mirrors `fn run_main` after worker spawning: the controller's result is
propagated (`?`), and on success the function returns `Ok(())`. -/
def run_main (lineResults : List (Except String (List Char))) (fresh : Keypair)
    (ms : List WorkerMessage) : Except String Unit :=
  match run_controller (checkpoint_with_largest_keypair lineResults) fresh ms with
  | Except.error e => Except.error e
  | Except.ok _ => Except.ok ()

/-- Mirrors `fn main`: on `Err(e)` it prints one line to stderr
(`eprintln!`) and then returns `()` — so the process exits with the normal
success status either way. The second component is the list of stderr
lines. -/
def main_exit (result : Except String Unit) : ExitStatus × List String :=
  match result with
  | Except.error e =>
      (ExitStatus.success, [String.append "error running edbrute: " e])
  | Except.ok _ => (ExitStatus.success, [])

/-- All-zero 32-byte sequence, used for concrete test keypairs. -/
def zeroBytes : List Nat := List.replicate 32 0

/-- Concrete keypair with all-zero public and secret bytes
(`public_key_to_u128` value 0). -/
def kpZero : Keypair := { public := zeroBytes, secret := zeroBytes }

/-- Concrete keypair whose public key's first 16 bytes read 5 in big-endian
(`public_key_to_u128` value 5). -/
def kpFive : Keypair :=
  { public := List.replicate 15 0 ++ 5 :: List.replicate 16 0, secret := zeroBytes }

/-- Concrete keypair with the same public bytes as `kpZero` (value 0) but a
different secret, giving a `public_key_to_u128` tie with `kpZero`. -/
def kpZeroTie : Keypair :=
  { public := zeroBytes, secret := 1 :: List.replicate 31 0 }

/-! Helper lemmas about the controller loop. -/

lemma controllerStep_accept (s : ControllerState) (kp : Keypair)
    (h : s.largest_value < public_key_to_u128 kp) :
    controllerStep s (WorkerMessage.Largest kp)
      = ({ largest_value := public_key_to_u128 kp, largest_keypair := kp },
         [ControllerOutput.Broadcast (public_key_to_u128 kp), ControllerOutput.Append kp,
          ControllerOutput.LogLine kp]) := by
  unfold controllerStep
  simp [h]

lemma controllerStep_reject (s : ControllerState) (kp : Keypair)
    (h : ¬ s.largest_value < public_key_to_u128 kp) :
    controllerStep s (WorkerMessage.Largest kp) = (s, []) := by
  unfold controllerStep
  simp [h]

lemma controllerStep_mono (s : ControllerState) (m : WorkerMessage) :
    s.largest_value ≤ ((controllerStep s m).1).largest_value := by
  cases m with
  | Largest kp =>
      by_cases h : s.largest_value < public_key_to_u128 kp
      · rw [controllerStep_accept s kp h]
        exact Nat.le_of_lt h
      · rw [controllerStep_reject s kp h]
  | Progress d => exact Nat.le_refl _

lemma controllerValueTrace_head (s : ControllerState) (ms : List WorkerMessage) :
    (controllerValueTrace s ms).head? = some s.largest_value := by
  cases ms <;> rfl

lemma controllerValueTrace_chain (ms : List WorkerMessage) :
    ∀ s : ControllerState, List.Chain' (· ≤ ·) (controllerValueTrace s ms) := by
  induction ms with
  | nil => intro s; exact List.chain'_singleton _
  | cons m ms ih =>
      intro s
      rw [controllerValueTrace, List.chain'_cons']
      refine ⟨?_, ih _⟩
      intro b hb
      rw [controllerValueTrace_head] at hb
      cases hb
      exact controllerStep_mono s m

lemma broadcastValues_append (xs ys : List ControllerOutput) :
    broadcastValues (xs ++ ys) = broadcastValues xs ++ broadcastValues ys := by
  induction xs with
  | nil => rfl
  | cons x xs ih => cases x <;> simp [broadcastValues, ih]

lemma controllerRun_broadcast_chain (ms : List WorkerMessage) :
    ∀ s : ControllerState,
      List.Chain' (· ≤ ·) (s.largest_value :: broadcastValues (controllerRun s ms).2) := by
  induction ms with
  | nil => intro s; simp [controllerRun, broadcastValues]
  | cons m ms ih =>
      intro s
      rw [controllerRun]
      cases m with
      | Largest kp =>
          by_cases h : s.largest_value < public_key_to_u128 kp
          · rw [controllerStep_accept s kp h]
            simp only [broadcastValues_append, broadcastValues]
            rw [List.chain'_cons]
            exact ⟨Nat.le_of_lt h,
              ih { largest_value := public_key_to_u128 kp, largest_keypair := kp }⟩
          · rw [controllerStep_reject s kp h]
            simpa [broadcastValues] using ih s
      | Progress d =>
          simp only [controllerStep, broadcastValues_append, broadcastValues]
          simpa using ih s

lemma controllerStep_effect_iff (s : ControllerState) (m : WorkerMessage) :
    ((controllerStep s m).1.largest_value ≠ s.largest_value
      ∨ broadcastValues (controllerStep s m).2 ≠ []
      ∨ appendedKeypairs (controllerStep s m).2 ≠ [])
    ↔ ∃ kp, m = WorkerMessage.Largest kp ∧ s.largest_value < public_key_to_u128 kp := by
  cases m with
  | Largest kp =>
      by_cases h : s.largest_value < public_key_to_u128 kp
      · rw [controllerStep_accept s kp h]
        simp only [broadcastValues, appendedKeypairs]
        constructor
        · intro _; exact ⟨kp, rfl, h⟩
        · intro _; right; left; simp
      · rw [controllerStep_reject s kp h]
        simp only [broadcastValues, appendedKeypairs]
        constructor
        · intro hx; cases hx with
          | inl hx => exact absurd rfl hx
          | inr hx => cases hx with
            | inl hx => exact absurd rfl hx
            | inr hx => exact absurd rfl hx
        · rintro ⟨kp2, heq, hlt⟩
          cases heq
          exact absurd hlt h
  | Progress d =>
      simp [controllerStep, broadcastValues, appendedKeypairs]

/-- C1: for every sequence of `Largest`/`Progress` messages processed by the
controller, `largest_value` is non-decreasing over time; it is updated (and
the new value broadcast to every worker, the keypair appended to the
checkpoint) exactly when an incoming candidate's value is strictly greater
than the current `largest_value`; and every threshold ever broadcast —
including the initial broadcast sent by `run_controller` before its loop —
is monotonically non-decreasing. -/
theorem controller_monotone_broadcast_on_improvement :
    ∀ (s0 : ControllerState) (ms : List WorkerMessage),
      List.Chain' (· ≤ ·) (controllerValueTrace s0 ms)
      ∧ List.Chain' (· ≤ ·) (s0.largest_value :: broadcastValues (controllerRun s0 ms).2)
      ∧ (∀ (saved : Option Keypair) (fresh : Keypair) (sf : ControllerState)
            (outs : List ControllerOutput),
          run_controller (Except.ok saved) fresh ms = Except.ok (sf, outs) →
          List.Chain' (· ≤ ·) (broadcastValues outs))
      ∧ (∀ (s : ControllerState) (m : WorkerMessage),
          ((controllerStep s m).1.largest_value ≠ s.largest_value
            ∨ broadcastValues (controllerStep s m).2 ≠ []
            ∨ appendedKeypairs (controllerStep s m).2 ≠ [])
          ↔ ∃ kp, m = WorkerMessage.Largest kp ∧ s.largest_value < public_key_to_u128 kp)
      ∧ (∀ (s : ControllerState) (kp : Keypair),
          s.largest_value < public_key_to_u128 kp →
          controllerStep s (WorkerMessage.Largest kp)
            = ({ largest_value := public_key_to_u128 kp, largest_keypair := kp },
               [ControllerOutput.Broadcast (public_key_to_u128 kp),
                ControllerOutput.Append kp, ControllerOutput.LogLine kp])) := by
  intro s0 ms
  refine ⟨controllerValueTrace_chain ms s0, controllerRun_broadcast_chain ms s0, ?_,
    controllerStep_effect_iff, controllerStep_accept⟩
  intro saved fresh sf outs h
  unfold run_controller at h
  rw [Except.ok.injEq, Prod.mk.injEq] at h
  rw [← h.2]
  simp only [broadcastValues]
  exact controllerRun_broadcast_chain ms
    { largest_value := public_key_to_u128 (saved.getD fresh),
      largest_keypair := saved.getD fresh }

/-- Witness for C1: a step from value 0 on candidate `kpFive` (value 5)
accepts, broadcasts 5 and appends the keypair, and the broadcast list of a
fresh `run_controller` with an empty store and no messages is the
single-element chain `[0]`. -/
theorem controller_monotone_broadcast_on_improvement_witness :
    controllerStep { largest_value := 0, largest_keypair := kpZero }
        (WorkerMessage.Largest kpFive)
      = ({ largest_value := public_key_to_u128 kpFive, largest_keypair := kpFive },
         [ControllerOutput.Broadcast (public_key_to_u128 kpFive),
          ControllerOutput.Append kpFive, ControllerOutput.LogLine kpFive])
    ∧ List.Chain' (· ≤ ·)
        (broadcastValues [ControllerOutput.Broadcast (public_key_to_u128 kpZero)]) :=
  ⟨(controller_monotone_broadcast_on_improvement { largest_value := 0, largest_keypair := kpZero }
      []).2.2.2.2 _ kpFive (by decide),
   (controller_monotone_broadcast_on_improvement { largest_value := 0, largest_keypair := kpZero }
      []).2.2.1 none kpZero _ _ rfl⟩

/-! Helper lemmas about the worker loop. -/

lemma run_worker_iteration_eq (lv : Nat) (gen : Nat → Keypair) (sf : Keypair → Bool)
    (polled : Option Nat) (pfail : Bool) :
    run_worker_iteration lv gen sf polled pfail
      = workerIterationOn lv (workerBatchCandidates gen) sf polled pfail := rfl

lemma workerBatchCandidates_cons (gen : Nat → Keypair) :
    workerBatchCandidates gen
      = gen 0 :: List.ofFn (fun i : Fin 65534 => gen (i.val + 1)) := by
  show List.ofFn _ = _
  rw [show iteration_delta = 65534 + 1 from rfl]
  rw [List.ofFn_succ]
  exact rfl

lemma workerBatchSends_head_fail (lv : Nat) (sf : Keypair → Bool) (p : Keypair)
    (rest : List Keypair) (hbeat : lv < public_key_to_u128 p) (hfail : sf p = true) :
    workerBatchSends lv sf (p :: rest) = BatchOutcome.panicked [] := by
  unfold workerBatchSends
  simp [hbeat, hfail]

lemma workerIterationOn_of_panicked (lv : Nat) (cands : List Keypair)
    (sf : Keypair → Bool) (polled : Option Nat) (pfail : Bool) (sent : List WorkerMessage)
    (h : workerBatchSends lv sf cands = BatchOutcome.panicked sent) :
    workerIterationOn lv cands sf polled pfail = LoopOutcome.panics sent := by
  unfold workerIterationOn
  rw [h]

lemma workerIterationOn_of_completed (lv : Nat) (cands : List Keypair)
    (sf : Keypair → Bool) (polled : Option Nat) (pfail : Bool) (t : Nat)
    (sent : List WorkerMessage)
    (h : workerBatchSends lv sf cands = BatchOutcome.completed t sent) :
    workerIterationOn lv cands sf polled pfail
      = if pfail then LoopOutcome.breaks sent
        else LoopOutcome.continues (workerPoll t polled)
          (sent ++ [WorkerMessage.Progress iteration_delta]) := by
  unfold workerIterationOn
  rw [h]

lemma workerBatchSends_cons_beat (lv : Nat) (sf : Keypair → Bool) (p : Keypair)
    (rest : List Keypair) (hbeat : lv < public_key_to_u128 p) (hok : sf p = false) :
    workerBatchSends lv sf (p :: rest)
      = match workerBatchSends (public_key_to_u128 p) sf rest with
        | BatchOutcome.panicked s => BatchOutcome.panicked (WorkerMessage.Largest p :: s)
        | BatchOutcome.completed t s =>
            BatchOutcome.completed t (WorkerMessage.Largest p :: s) := by
  simp only [workerBatchSends]
  rw [if_pos hbeat, hok]
  rfl

lemma workerBatchSends_cons_nobeat (lv : Nat) (sf : Keypair → Bool) (p : Keypair)
    (rest : List Keypair) (hbeat : ¬ lv < public_key_to_u128 p) :
    workerBatchSends lv sf (p :: rest) = workerBatchSends lv sf rest := by
  simp only [workerBatchSends]
  rw [if_neg hbeat]

lemma workerBatchSends_no_fail_completes (cands : List Keypair) :
    ∀ lv : Nat, ∃ t sent,
      workerBatchSends lv (fun _ => false) cands = BatchOutcome.completed t sent := by
  induction cands with
  | nil => intro lv; exact ⟨lv, [], rfl⟩
  | cons p rest ih =>
      intro lv
      by_cases h : lv < public_key_to_u128 p
      · obtain ⟨t, sent, hrec⟩ := ih (public_key_to_u128 p)
        refine ⟨t, WorkerMessage.Largest p :: sent, ?_⟩
        rw [workerBatchSends_cons_beat lv _ p rest h rfl, hrec]
      · obtain ⟨t, sent, hrec⟩ := ih lv
        exact ⟨t, sent, by rw [workerBatchSends_cons_nobeat lv _ p rest h]; exact hrec⟩

lemma workerBatchSends_ok_chain (cands : List Keypair) :
    ∀ (lv t : Nat) (sent : List WorkerMessage),
      workerBatchSends lv (fun _ => false) cands = BatchOutcome.completed t sent →
      List.Chain' (· < ·) (lv :: largestValuesOf sent)
      ∧ (lv :: largestValuesOf sent).getLast? = some t := by
  induction cands with
  | nil =>
      intro lv t sent h
      unfold workerBatchSends at h
      cases h
      exact ⟨List.chain'_singleton _, rfl⟩
  | cons p rest ih =>
      intro lv t sent h
      by_cases hv : lv < public_key_to_u128 p
      · rw [workerBatchSends_cons_beat lv _ p rest hv rfl] at h
        cases hrec : workerBatchSends (public_key_to_u128 p) (fun _ => false) rest with
        | panicked s => rw [hrec] at h; cases h
        | completed t2 sent2 =>
            rw [hrec] at h
            change BatchOutcome.completed t2 (WorkerMessage.Largest p :: sent2)
              = BatchOutcome.completed t sent at h
            obtain ⟨ht, hsent⟩ := BatchOutcome.completed.inj h
            subst ht
            subst hsent
            obtain ⟨hchain, hlast⟩ := ih (public_key_to_u128 p) t2 sent2 hrec
            refine ⟨?_, ?_⟩
            · rw [largestValuesOf, List.chain'_cons]
              exact ⟨hv, hchain⟩
            · rw [largestValuesOf, List.getLast?_cons_cons]
              exact hlast
      · rw [workerBatchSends_cons_nobeat lv _ p rest hv] at h
        exact ih lv t sent h

/-- C2 (amended): within one batch, the worker's optimistic raises of its
local threshold form a strictly increasing sequence starting from the
threshold held at batch entry, and the final batch threshold is the last
value assigned; the post-batch poll, however, overwrites the local
threshold with whatever value `try_recv` returned, unconditionally — it is
not forced to be an increase. -/
theorem worker_threshold_raises_monotone_poll_overwrites :
    ∀ (lv : Nat) (cands : List Keypair) (t : Nat) (sent : List WorkerMessage),
      workerBatchSends lv (fun _ => false) cands = BatchOutcome.completed t sent →
      List.Chain' (· < ·) (lv :: largestValuesOf sent)
      ∧ (lv :: largestValuesOf sent).getLast? = some t
      ∧ ∀ polled : Nat, workerPoll t (some polled) = polled := by
  intro lv cands t sent h
  obtain ⟨hchain, hlast⟩ := workerBatchSends_ok_chain cands lv t sent h
  exact ⟨hchain, hlast, fun _ => rfl⟩

/-- Witness for C2's amended theorem: a batch entered at threshold 0 with
one candidate of value 5 raises once, ends at 5, and a subsequent poll of 3
overwrites the threshold with 3. -/
theorem worker_threshold_raises_monotone_poll_overwrites_witness :
    List.Chain' (· < ·) (0 :: largestValuesOf [WorkerMessage.Largest kpFive])
    ∧ (0 :: largestValuesOf [WorkerMessage.Largest kpFive]).getLast?
        = some (public_key_to_u128 kpFive)
    ∧ ∀ polled : Nat, workerPoll (public_key_to_u128 kpFive) (some polled) = polled :=
  worker_threshold_raises_monotone_poll_overwrites 0 [kpFive] (public_key_to_u128 kpFive)
    [WorkerMessage.Largest kpFive] (by decide)

/-- C2 is false as stated: after an optimistic raise to 5, adopting a
polled threshold of 3 (a broadcast that lags the worker's own report,
which the controller's channel can deliver) assigns a smaller value, so
the sequence of assignments to the worker's local threshold is not
non-decreasing. -/
theorem worker_threshold_decreases_counterexample :
    workerThresholdAssignments 0 [([kpFive], some 3)] = [5, 3]
    ∧ ¬ List.Chain' (· ≤ ·) (0 :: workerThresholdAssignments 0 [([kpFive], some 3)]) := by
  refine ⟨rfl, ?_⟩
  rw [show workerThresholdAssignments 0 [([kpFive], some 3)] = [5, 3] from rfl]
  simp [List.chain'_cons]

/-- C6 (amended): one batch performs exactly `iteration_delta` = 65535
generate-and-compare iterations (not 65536), and the `Progress` message
sent after a completed batch carries exactly that `iteration_delta`. -/
theorem worker_batch_size_65535 :
    ∀ (gen : Nat → Keypair) (lv t : Nat) (polled : Option Nat)
      (sent : List WorkerMessage),
      (workerBatchCandidates gen).length = iteration_delta
      ∧ iteration_delta = 65535
      ∧ (workerBatchSends lv (fun _ => false) (workerBatchCandidates gen)
            = BatchOutcome.completed t sent →
          run_worker_iteration lv gen (fun _ => false) polled false
            = LoopOutcome.continues (workerPoll t polled)
                (sent ++ [WorkerMessage.Progress iteration_delta])) := by
  intro gen lv t polled sent
  refine ⟨?_, rfl, ?_⟩
  · unfold workerBatchCandidates
    exact List.length_ofFn _
  · intro h
    rw [run_worker_iteration_eq, workerIterationOn_of_completed _ _ _ _ _ _ _ h]
    rfl

/-- C6 is false as stated: the batch size is `u16::MAX as usize` = 65535,
not 65536 — the candidate list of a batch has 65535 elements and the
post-batch `Progress` message does not carry 65536. -/
theorem worker_batch_size_not_65536_counterexample :
    iteration_delta ≠ 65536
    ∧ (workerBatchCandidates fun _ => kpZero).length = 65535
    ∧ WorkerMessage.Progress iteration_delta ≠ WorkerMessage.Progress 65536 := by
  refine ⟨by decide, ?_, by decide⟩
  unfold workerBatchCandidates
  rw [List.length_ofFn]
  rfl

lemma workerBatchSends_none_beat (cands : List Keypair) :
    ∀ lv : Nat, (∀ p ∈ cands, ¬ lv < public_key_to_u128 p) →
      workerBatchSends lv (fun _ => false) cands = BatchOutcome.completed lv [] := by
  induction cands with
  | nil => intro lv _; rfl
  | cons p rest ih =>
      intro lv hall
      unfold workerBatchSends
      have hp : ¬ lv < public_key_to_u128 p := hall p (List.mem_cons_self p rest)
      simp only [hp, if_false, if_neg, gt_iff_lt]
      exact ih lv fun q hq => hall q (List.mem_cons_of_mem p hq)

/-- Witness for C6's amended theorem: with every generated candidate equal
to `kpZero` (value 0, never beating threshold 0), the batch completes with
no report and the pass continues, sending `Progress iteration_delta` and
adopting the polled threshold 7. -/
theorem worker_batch_size_65535_witness :
    run_worker_iteration 0 (fun _ => kpZero) (fun _ => false) (some 7) false
      = LoopOutcome.continues (workerPoll 0 (some 7))
          ([] ++ [WorkerMessage.Progress iteration_delta]) :=
  (worker_batch_size_65535 (fun _ => kpZero) 0 0 (some 7) []).2.2
    (workerBatchSends_none_beat _ 0 (by
      intro p hp
      rw [workerBatchCandidates] at hp
      obtain ⟨i, hi⟩ := (List.mem_ofFn _ _).mp hp
      subst hi
      show ¬ (0 : Nat) < public_key_to_u128 kpZero
      decide))

lemma workerBatchSends_no_fail_not_panicked (cands : List Keypair) (lv : Nat)
    (sent : List WorkerMessage) :
    workerBatchSends lv (fun _ => false) cands ≠ BatchOutcome.panicked sent := by
  obtain ⟨t, s, h⟩ := workerBatchSends_no_fail_completes cands lv
  rw [h]
  intro hc
  cases hc

/-- C7 (amended): a failed `Progress` send is the sole condition under
which the worker's loop exits silently (via `break`); when no send fails
the loop continues and never panics; but a failed `Largest`-candidate send
does not exit silently — it hits `.unwrap()` and panics the worker
thread. -/
theorem worker_send_failure_semantics :
    ∀ (lv : Nat) (gen : Nat → Keypair) (sf : Keypair → Bool) (polled : Option Nat)
      (pfail : Bool),
      ((∃ sent, run_worker_iteration lv gen (fun _ => false) polled pfail
          = LoopOutcome.breaks sent) ↔ pfail = true)
      ∧ (∀ sent, run_worker_iteration lv gen (fun _ => false) polled pfail
          ≠ LoopOutcome.panics sent)
      ∧ (∀ sent,
          workerBatchSends lv sf (workerBatchCandidates gen) = BatchOutcome.panicked sent →
          run_worker_iteration lv gen sf polled pfail = LoopOutcome.panics sent) := by
  intro lv gen sf polled pfail
  obtain ⟨t, sent0, hc⟩ := workerBatchSends_no_fail_completes (workerBatchCandidates gen) lv
  have hiter := workerIterationOn_of_completed lv (workerBatchCandidates gen)
    (fun _ => false) polled pfail t sent0 hc
  refine ⟨?_, ?_, ?_⟩
  · constructor
    · rintro ⟨sent, hs⟩
      rw [run_worker_iteration_eq, hiter] at hs
      by_contra hp
      rw [Bool.not_eq_true] at hp
      subst hp
      rw [if_neg (by simp)] at hs
      cases hs
    · intro hp
      subst hp
      exact ⟨sent0, by rw [run_worker_iteration_eq, hiter]; rfl⟩
  · intro sent hs
    rw [run_worker_iteration_eq, hiter] at hs
    by_cases hp : pfail = true
    · subst hp
      rw [if_pos rfl] at hs
      cases hs
    · rw [Bool.not_eq_true] at hp
      subst hp
      rw [if_neg (by simp)] at hs
      cases hs
  · intro sent h
    rw [run_worker_iteration_eq]
    exact workerIterationOn_of_panicked _ _ _ _ _ _ h

/-- Witness for C7's amended theorem: from threshold 1, the first generated
candidate `kpFive` (value 5) beats it, its send fails, and the worker
panics. -/
theorem worker_send_failure_semantics_witness :
    run_worker_iteration 1 (fun _ => kpFive) (fun _ => true) none false
      = LoopOutcome.panics [] :=
  (worker_send_failure_semantics 1 (fun _ => kpFive) (fun _ => true) none false).2.2 []
    (by
      rw [workerBatchCandidates_cons]
      exact workerBatchSends_head_fail 1 _ kpFive _ (by decide) rfl)

/-- C7 is false as stated: a failed send of a `Largest` candidate message
does not make the worker exit its loop silently — `.unwrap()` panics the
worker thread instead (here: from threshold 0, candidate `kpFive` beats it,
the send fails, and the outcome is a panic, not a silent break). -/
theorem worker_largest_send_failure_counterexample :
    run_worker_iteration 0 (fun _ => kpFive) (fun _ => true) none false
      = LoopOutcome.panics []
    ∧ ∀ sent, LoopOutcome.panics ([] : List WorkerMessage) ≠ LoopOutcome.breaks sent := by
  constructor
  · rw [run_worker_iteration_eq, workerBatchCandidates_cons]
    exact workerIterationOn_of_panicked _ _ _ _ _ _
      (workerBatchSends_head_fail 0 _ kpFive _ (by decide) rfl)
  · intro sent hc
    cases hc

/-! Helper lemmas about `max_by_key` and the checkpoint load. -/

lemma foldl_max_mem (f : Keypair → Nat) (xs : List Keypair) :
    ∀ x : Keypair,
      xs.foldl (fun acc y => if f acc > f y then acc else y) x ∈ x :: xs := by
  induction xs with
  | nil => intro x; exact List.mem_singleton.mpr rfl
  | cons y ys ih =>
      intro x
      rw [List.foldl_cons]
      by_cases hxy : f x > f y
      · rw [if_pos hxy]
        rcases List.mem_cons.mp (ih x) with h | h
        · rw [h]; exact List.mem_cons_self _ _
        · exact List.mem_cons_of_mem _ (List.mem_cons_of_mem _ h)
      · rw [if_neg hxy]
        rcases List.mem_cons.mp (ih y) with h | h
        · rw [h]; exact List.mem_cons_of_mem _ (List.mem_cons_self _ _)
        · exact List.mem_cons_of_mem _ (List.mem_cons_of_mem _ h)

lemma foldl_max_ge (f : Keypair → Nat) (xs : List Keypair) :
    ∀ (x a : Keypair), a ∈ x :: xs →
      f a ≤ f (xs.foldl (fun acc y => if f acc > f y then acc else y) x) := by
  induction xs with
  | nil =>
      intro x a ha
      rw [List.mem_singleton.mp ha]
      exact Nat.le_refl _
  | cons y ys ih =>
      intro x a ha
      rw [List.foldl_cons]
      have hstep : ∀ b : Keypair, b = x ∨ b = y →
          f b ≤ f (if f x > f y then x else y) := by
        intro b hb
        by_cases hxy : f x > f y
        · rw [if_pos hxy]
          rcases hb with hb | hb
          · rw [hb]
          · rw [hb]; exact Nat.le_of_lt hxy
        · rw [if_neg hxy]
          rcases hb with hb | hb
          · rw [hb]; exact Nat.le_of_not_lt hxy
          · rw [hb]
      rcases List.mem_cons.mp ha with ha | ha
      · calc f a ≤ f (if f x > f y then x else y) := hstep a (Or.inl ha)
          _ ≤ _ := ih _ _ (List.mem_cons_self _ _)
      · rcases List.mem_cons.mp ha with ha | ha
        · calc f a ≤ f (if f x > f y then x else y) := hstep a (Or.inr ha)
            _ ≤ _ := ih _ _ (List.mem_cons_self _ _)
        · exact ih _ a (List.mem_cons_of_mem _ ha)

lemma foldl_max_strict_after (f : Keypair → Nat) (l : List Keypair) :
    ∀ x : Keypair, (∀ b ∈ l, f b < f x) →
      l.foldl (fun acc y => if f acc > f y then acc else y) x = x := by
  induction l with
  | nil => intro x _; rfl
  | cons b bs ih =>
      intro x hall
      rw [List.foldl_cons, if_pos (hall b (List.mem_cons_self b bs))]
      exact ih x fun c hc => hall c (List.mem_cons_of_mem _ hc)

lemma foldl_max_through (f : Keypair → Nat) (l₁ : List Keypair) :
    ∀ (x k : Keypair) (l₂ : List Keypair),
      f x ≤ f k → (∀ a ∈ l₁, f a ≤ f k) → (∀ b ∈ l₂, f b < f k) →
      (l₁ ++ k :: l₂).foldl (fun acc y => if f acc > f y then acc else y) x = k := by
  induction l₁ with
  | nil =>
      intro x k l₂ hx _ hl₂
      rw [List.nil_append, List.foldl_cons, if_neg (Nat.not_lt.mpr hx)]
      exact foldl_max_strict_after f l₂ k hl₂
  | cons a l₁ ih =>
      intro x k l₂ hx hl₁ hl₂
      rw [List.cons_append, List.foldl_cons]
      have hak : f a ≤ f k := hl₁ a (List.mem_cons_self a l₁)
      have hmax : f (if f x > f a then x else a) ≤ f k := by
        by_cases hxa : f x > f a
        · rw [if_pos hxa]; exact hx
        · rw [if_neg hxa]; exact hak
      exact ih _ k l₂ hmax (fun c hc => hl₁ c (List.mem_cons_of_mem _ hc)) hl₂

lemma readOkLines_map_ok (lines : List (List Char)) :
    readOkLines (lines.map Except.ok) = lines := by
  induction lines with
  | nil => rfl
  | cons l ls ih =>
      rw [List.map_cons]
      rw [show readOkLines (Except.ok l :: ls.map Except.ok)
        = l :: readOkLines (ls.map Except.ok) from rfl]
      rw [ih]

/-- C3 (amended): for a checkpoint whose lines all read and parse
successfully into the keypair list `kps`, the load returns
`max_by_key public_key_to_u128 kps`; the returned entry is a member
attaining the maximum `ComparableValue`; and among entries tied for the
maximum it is the last-encountered maximal entry (not the first) that is
returned. -/
theorem load_max_returns_last_maximal :
    ∀ (lines : List (List Char)) (kps : List Keypair),
      parseLines lines = Except.ok kps →
      checkpoint_with_largest_keypair (lines.map Except.ok)
          = Except.ok (max_by_key public_key_to_u128 kps)
      ∧ (∀ k : Keypair, max_by_key public_key_to_u128 kps = some k →
          k ∈ kps ∧ ∀ a ∈ kps, public_key_to_u128 a ≤ public_key_to_u128 k)
      ∧ (∀ (l₁ : List Keypair) (k : Keypair) (l₂ : List Keypair),
          kps = l₁ ++ k :: l₂ →
          (∀ a ∈ l₁, public_key_to_u128 a ≤ public_key_to_u128 k) →
          (∀ b ∈ l₂, public_key_to_u128 b < public_key_to_u128 k) →
          max_by_key public_key_to_u128 kps = some k) := by
  intro lines kps hparse
  refine ⟨?_, ?_, ?_⟩
  · unfold checkpoint_with_largest_keypair
    rw [readOkLines_map_ok, hparse]
  · intro k hk
    cases kps with
    | nil => cases hk
    | cons x xs =>
        rw [max_by_key, Option.some.injEq] at hk
        subst hk
        exact ⟨foldl_max_mem _ xs x, fun a ha => foldl_max_ge _ xs x a ha⟩
  · intro l₁ k l₂ hshape hl₁ hl₂
    subst hshape
    cases l₁ with
    | nil =>
        rw [List.nil_append, max_by_key, Option.some.injEq]
        exact foldl_max_strict_after _ l₂ k hl₂
    | cons x l₁ =>
        rw [List.cons_append, max_by_key, Option.some.injEq]
        exact foldl_max_through _ l₁ x k l₂ (hl₁ x (List.mem_cons_self x l₁))
          (fun a ha => hl₁ a (List.mem_cons_of_mem _ ha)) hl₂

/-- Witness for C3's amended theorem: two parsed entries tied at value 0 —
the load selects the second (last-encountered) one. -/
theorem load_max_returns_last_maximal_witness :
    max_by_key public_key_to_u128 [kpZero, kpZeroTie] = some kpZeroTie :=
  (load_max_returns_last_maximal [serialize_keypair kpZero, serialize_keypair kpZeroTie]
      [kpZero, kpZeroTie] rfl).2.2 [kpZero] kpZeroTie [] rfl (by decide) (by decide)

/-- C3 is false as stated: on a checkpoint with two entries tied for the
maximal `ComparableValue` (identical public bytes, different secrets), the
load returns the second entry, not the first-encountered maximal one. -/
theorem load_max_tie_returns_last_counterexample :
    checkpoint_with_largest_keypair
        [Except.ok (serialize_keypair kpZero), Except.ok (serialize_keypair kpZeroTie)]
      = Except.ok (some kpZeroTie)
    ∧ kpZeroTie ≠ kpZero
    ∧ public_key_to_u128 kpZero = public_key_to_u128 kpZeroTie :=
  ⟨rfl, by decide, rfl⟩

lemma parseLines_error_of_mem (ls : List (List Char)) :
    ∀ (line : List Char) (e : String), line ∈ ls →
      parse_checkpoint_line line = Except.error e →
      ∃ e2, parseLines ls = Except.error e2 := by
  induction ls with
  | nil => intro line e h; cases h
  | cons l ls ih =>
      intro line e hmem hbad
      rcases List.mem_cons.mp hmem with hmem | hmem
      · subst hmem
        exact ⟨e, by rw [parseLines, hbad]⟩
      · cases hl : parse_checkpoint_line l with
        | error e2 => exact ⟨e2, by rw [parseLines, hl]⟩
        | ok kp =>
            obtain ⟨e2, h2⟩ := ih line e hmem hbad
            exact ⟨e2, by rw [parseLines, hl, h2]⟩

/-- C4: if any successfully read checkpoint line fails to parse (no comma,
invalid hex, wrong key byte-length all surface as a parse error), the load
returns an error instead of skipping the line, and the controller startup
then fails: no incumbent state is produced and no output (in particular no
append) is ever emitted. -/
theorem load_malformed_line_fatal :
    ∀ (lineResults : List (Except String (List Char))) (fresh : Keypair)
      (ms : List WorkerMessage) (line : List Char) (e : String),
      line ∈ readOkLines lineResults →
      parse_checkpoint_line line = Except.error e →
      (∃ e2, checkpoint_with_largest_keypair lineResults = Except.error e2)
      ∧ (∃ e2, run_controller (checkpoint_with_largest_keypair lineResults) fresh ms
          = Except.error e2) := by
  intro lineResults fresh ms line e hmem hbad
  obtain ⟨e2, h2⟩ := parseLines_error_of_mem (readOkLines lineResults) line e hmem hbad
  have hload : checkpoint_with_largest_keypair lineResults = Except.error e2 := by
    unfold checkpoint_with_largest_keypair
    rw [h2]
  exact ⟨⟨e2, hload⟩, ⟨e2, by rw [hload]; rfl⟩⟩

/-- Witness for C4: a one-line store whose line `"x"` has no comma — the
load and the controller startup both fail with an error. -/
theorem load_malformed_line_fatal_witness :
    (∃ e2, checkpoint_with_largest_keypair [Except.ok [Char.ofNat 120]]
        = Except.error e2)
    ∧ (∃ e2, run_controller (checkpoint_with_largest_keypair [Except.ok [Char.ofNat 120]])
        kpZero [] = Except.error e2) :=
  load_malformed_line_fatal [Except.ok [Char.ofNat 120]] kpZero [] [Char.ofNat 120]
    "malformed keypair line" (by decide) rfl

/-! Helper lemmas about hex encoding and decoding. -/

lemma hexDigitValue_hexDigitChar (n : Nat) (h : n < 16) :
    hexDigitValue (hexDigitChar n) = some n := by
  interval_cases n <;> decide

lemma hexDigitChar_ne_comma (n : Nat) (h : n < 16) : hexDigitChar n ≠ ',' := by
  interval_cases n <;> decide

lemma byte_div_lt (b : Nat) (h : b < 256) : b / 16 < 16 := by omega

lemma byte_mod_lt (b : Nat) : b % 16 < 16 := Nat.mod_lt b (by omega)

lemma hexEncode_ne_comma (bs : List Nat) :
    (∀ b ∈ bs, b < 256) → ∀ c ∈ hexEncode bs, c ≠ ',' := by
  induction bs with
  | nil => intro _ c hc; cases hc
  | cons b bs ih =>
      intro hall c hc
      have hb : b < 256 := hall b (List.mem_cons_self b bs)
      rw [hexEncode, hexEncodeByte] at hc
      rcases List.mem_cons.mp hc with hc | hc
      · rw [hc]; exact hexDigitChar_ne_comma _ (byte_div_lt b hb)
      rcases List.mem_cons.mp hc with hc | hc
      · rw [hc]; exact hexDigitChar_ne_comma _ (byte_mod_lt b)
      · exact ih (fun q hq => hall q (List.mem_cons_of_mem _ hq)) c hc

lemma split_once_no_sep_append (l₁ : List Char) :
    ∀ l₂ : List Char, (∀ c ∈ l₁, c ≠ ',') →
      split_once ',' (l₁ ++ ',' :: l₂) = some (l₁, l₂) := by
  induction l₁ with
  | nil => intro l₂ _; rw [List.nil_append, split_once, if_pos rfl]
  | cons c cs ih =>
      intro l₂ hall
      rw [List.cons_append, split_once,
        if_neg (hall c (List.mem_cons_self c cs)),
        ih l₂ fun d hd => hall d (List.mem_cons_of_mem _ hd)]

lemma hexDecode_hexEncode (bs : List Nat) :
    (∀ b ∈ bs, b < 256) → hexDecode (hexEncode bs) = some bs := by
  induction bs with
  | nil => intro _; rfl
  | cons b bs ih =>
      intro hall
      have hb : b < 256 := hall b (List.mem_cons_self b bs)
      rw [hexEncode, hexEncodeByte, List.cons_append, List.cons_append, List.nil_append]
      rw [hexDecode]
      rw [hexDigitValue_hexDigitChar _ (byte_div_lt b hb),
        hexDigitValue_hexDigitChar _ (byte_mod_lt b),
        ih fun q hq => hall q (List.mem_cons_of_mem _ hq)]
      show some ((16 * (b / 16) + b % 16) :: bs) = some (b :: bs)
      have hrecon : 16 * (b / 16) + b % 16 = b := by omega
      rw [hrecon]

lemma hexEncode_length (bs : List Nat) : (hexEncode bs).length = 2 * bs.length := by
  induction bs with
  | nil => rfl
  | cons b bs ih =>
      rw [hexEncode, hexEncodeByte, List.length_append, ih]
      simp
      omega

/-- C5: round-trip — serializing any `Keypair` with well-formed byte
content (32-byte components, byte values below 256) to a checkpoint line
and parsing that line back succeeds and yields a byte-identical
`Keypair`. -/
theorem serialize_parse_roundtrip :
    ∀ kp : Keypair,
      kp.public.length = PUBLIC_KEY_LENGTH → kp.secret.length = SECRET_KEY_LENGTH →
      (∀ b ∈ kp.public, b < 256) → (∀ b ∈ kp.secret, b < 256) →
      parse_checkpoint_line (serialize_keypair kp) = Except.ok kp := by
  intro kp hplen hslen hpub hsec
  rw [serialize_keypair, parse_checkpoint_line,
    split_once_no_sep_append _ _ (hexEncode_ne_comma _ hpub)]
  show (match hexDecode (hexEncode kp.public), hexDecode (hexEncode kp.secret) with
    | some public_bytes, some secret_bytes =>
        match publicKeyFromBytes public_bytes, secretKeyFromBytes secret_bytes with
        | some pub, some sec => Except.ok { public := pub, secret := sec }
        | _, _ => Except.error "invalid key byte length"
    | _, _ => Except.error "invalid hex")
    = Except.ok kp
  rw [hexDecode_hexEncode _ hpub, hexDecode_hexEncode _ hsec]
  show (match publicKeyFromBytes kp.public, secretKeyFromBytes kp.secret with
    | some pub, some sec => Except.ok { public := pub, secret := sec }
    | _, _ => Except.error "invalid key byte length")
    = Except.ok kp
  rw [publicKeyFromBytes, secretKeyFromBytes, if_pos hplen, if_pos hslen]

/-- Witness for C5: the all-zero keypair round-trips through its
checkpoint line. -/
theorem serialize_parse_roundtrip_witness :
    parse_checkpoint_line (serialize_keypair kpZero) = Except.ok kpZero :=
  serialize_parse_roundtrip kpZero rfl rfl (by decide) (by decide)

/-! Helper lemmas about the comparable-value extractor. -/

lemma beBytesToNat_lt (bs : List Nat) :
    (∀ b ∈ bs, b < 256) → beBytesToNat bs < 256 ^ bs.length := by
  induction bs with
  | nil => intro _; rw [beBytesToNat]; exact Nat.one_pos
  | cons b bs ih =>
      intro hall
      have hb : b < 256 := hall b (List.mem_cons_self b bs)
      have hrest := ih fun q hq => hall q (List.mem_cons_of_mem _ hq)
      rw [beBytesToNat, List.length_cons, pow_succ]
      calc b * 256 ^ bs.length + beBytesToNat bs
          < b * 256 ^ bs.length + 256 ^ bs.length := Nat.add_lt_add_left hrest _
        _ = (b + 1) * 256 ^ bs.length := by ring
        _ ≤ 256 * 256 ^ bs.length := Nat.mul_le_mul_right _ hb
        _ = 256 ^ bs.length * 256 := Nat.mul_comm _ _

/-- C9: the comparable-value extractor is total on every well-formed
`Keypair` (32-byte public key): the checked version (which makes the `Rust`
slice and `try_into().unwrap()` failure spots explicit) always succeeds and
agrees with the pure function, which returns the big-endian interpretation
of the first 16 public-key bytes — a value below `2 ^ 128`, i.e. a valid
`u128`. -/
theorem public_key_to_u128_total :
    ∀ kp : Keypair,
      kp.public.length = PUBLIC_KEY_LENGTH → (∀ b ∈ kp.public, b < 256) →
      public_key_to_u128_checked kp = some (public_key_to_u128 kp)
      ∧ public_key_to_u128 kp = beBytesToNat (kp.public.take 16)
      ∧ public_key_to_u128 kp < 2 ^ 128 := by
  intro kp hlen hbytes
  have hslice : sliceRange kp.public 0 16 = some (kp.public.take 16) := by
    rw [sliceRange, if_pos ⟨by omega, by rw [hlen]; decide⟩, List.drop_zero]
  have htakelen : (kp.public.take 16).length = 16 := by
    rw [List.length_take, hlen]
    rfl
  refine ⟨?_, rfl, ?_⟩
  · rw [public_key_to_u128_checked, hslice]
    show u128_from_be_bytes (kp.public.take 16) = some (public_key_to_u128 kp)
    rw [u128_from_be_bytes, if_pos htakelen]
    rfl
  · have hlt := beBytesToNat_lt (kp.public.take 16)
      fun b hb => hbytes b (List.mem_of_mem_take hb)
    rw [htakelen] at hlt
    calc public_key_to_u128 kp < 256 ^ 16 := hlt
      _ = 2 ^ 128 := by norm_num

/-- Witness for C9: the extractor on the all-zero keypair returns
`some 0`. -/
theorem public_key_to_u128_total_witness :
    public_key_to_u128_checked kpZero = some (public_key_to_u128 kpZero)
    ∧ public_key_to_u128 kpZero = beBytesToNat (kpZero.public.take 16)
    ∧ public_key_to_u128 kpZero < 2 ^ 128 :=
  public_key_to_u128_total kpZero rfl (by decide)

/-! Helper lemmas about unreadable lines. -/

lemma readOkLines_append (xs ys : List (Except String (List Char))) :
    readOkLines (xs ++ ys) = readOkLines xs ++ readOkLines ys :=
  List.filterMap_append xs ys _

lemma readOkLines_error_cons (e : String) (ys : List (Except String (List Char))) :
    readOkLines (Except.error e :: ys) = readOkLines ys := rfl

/-- C10 (implicit): a checkpoint line that fails to be read at all (the
`lines()` iterator yields `Err`, e.g. invalid UTF-8) is silently skipped by
`.flatten()` rather than treated as fatal: the load of a line-result list
with a read error inserted equals the load without it, and in general the
load only depends on the successfully read lines. -/
theorem load_skips_unreadable_lines :
    ∀ (pre post rs : List (Except String (List Char))) (e : String),
      checkpoint_with_largest_keypair (pre ++ Except.error e :: post)
        = checkpoint_with_largest_keypair (pre ++ post)
      ∧ checkpoint_with_largest_keypair rs
        = checkpoint_with_largest_keypair ((readOkLines rs).map Except.ok) := by
  intro pre post rs e
  constructor
  · unfold checkpoint_with_largest_keypair
    rw [readOkLines_append, readOkLines_error_cons, ← readOkLines_append]
  · unfold checkpoint_with_largest_keypair
    rw [readOkLines_map_ok]

/-! The exit behaviour of `fn main`. -/

/-- C8 (amended): on any fatal error — the checkpoint store failing to
load included — the process prints one `error running edbrute: ...` line to
stderr but then terminates with the normal success status (exit code 0),
because `fn main` only prints the `Err` and returns `()`; it does not exit
abnormally. -/
theorem main_prints_error_but_exits_successfully :
    (∀ r : Except String Unit, (main_exit r).1 = ExitStatus.success)
    ∧ (∀ e : String,
        (main_exit (Except.error e)).2 = [String.append "error running edbrute: " e])
    ∧ (main_exit (Except.ok ())).2 = []
    ∧ (∀ (lineResults : List (Except String (List Char))) (fresh : Keypair)
          (ms : List WorkerMessage) (e : String),
        checkpoint_with_largest_keypair lineResults = Except.error e →
        run_main lineResults fresh ms = Except.error e
        ∧ (main_exit (run_main lineResults fresh ms)).1 = ExitStatus.success) := by
  refine ⟨?_, fun _ => rfl, rfl, ?_⟩
  · intro r
    cases r <;> rfl
  · intro lineResults fresh ms e h
    have hrm : run_main lineResults fresh ms = Except.error e := by
      rw [run_main, h]
      rfl
    rw [hrm]
    exact ⟨rfl, rfl⟩

/-- Witness for C8's amended theorem: with a malformed single-line store,
`run_main` fails and `main` still exits with the success status. -/
theorem main_prints_error_but_exits_successfully_witness :
    run_main [Except.ok [Char.ofNat 120]] kpZero [] = Except.error "malformed keypair line"
    ∧ (main_exit (run_main [Except.ok [Char.ofNat 120]] kpZero [])).1
        = ExitStatus.success :=
  main_prints_error_but_exits_successfully.2.2.2 [Except.ok [Char.ofNat 120]] kpZero []
    "malformed keypair line" rfl

/-- C8 is false as stated: on a fatal startup error the process prints the
error but exits with the success status — not an unsuccessful one. -/
theorem main_error_exit_status_counterexample :
    (main_exit (Except.error "unable to create checkpoint file")).1 = ExitStatus.success
    ∧ ExitStatus.success ≠ ExitStatus.failure
    ∧ (main_exit (Except.error "unable to create checkpoint file")).2 ≠ [] := by
  refine ⟨rfl, by decide, ?_⟩
  intro h
  cases h

end Edbrute
